import Mathlib

/-!
A shallow embedding of the `ipnetwork` Rust crate (`src/lib.rs`): CIDR blocks
over the 32-bit and 128-bit address widths, their derived quantities, the
subnet iterator and textual parsing.

Machine integers are modelled as `Nat` with explicit bounds.  Rust's
debug-mode arithmetic is used: an operation that would panic (overflowing
addition, underflowing subtraction, a shift by at least the bit width) is
modelled as `Option.none`; a fallible operation that returns `Result` is
modelled as `Except Error`, so source functions returning `Result<T, Error>`
become `Option (Except Error T)` here (`none` = panic, `some` = the value the
Rust function returns).
-/

namespace Ipnetwork

/-- The crate's error taxonomy (`enum Error`). -/
inductive Error where
  | InvalidNetwork
  | CidrMissMatch
  | NetworkParseError
  deriving DecidableEq, Repr

/-- `Ipv4Network { first: u32, cidr: u8 }`: base address and prefix length. -/
structure Ipv4Network where
  first : Nat
  cidr : Nat
  deriving DecidableEq, Repr

/-- `Ipv6Network { first: u128, cidr: u8 }`. -/
structure Ipv6Network where
  first : Nat
  cidr : Nat
  deriving DecidableEq, Repr

/-- `NetworkV4Iterator`: cursor state of the subnet iterator (field order as
in the source: `current`, `max`, `stepping`, `cidr`). -/
structure NetworkV4Iterator where
  current : Nat
  max : Nat
  stepping : Nat
  cidr : Nat
  deriving DecidableEq, Repr

/-- `HostIterator { current: u32, max: u32 }`. -/
structure HostIterator where
  current : Nat
  max : Nat
  deriving DecidableEq, Repr

/-- Rust `u8` subtraction in debug mode: underflow panics, modelled as `none`. -/
def checkedSub (a b : Nat) : Option Nat :=
  if b ≤ a then some (a - b) else none

/-- Rust `u32` addition in debug mode: overflow panics, modelled as `none`. -/
def checkedAdd32 (a b : Nat) : Option Nat :=
  if a + b < 2 ^ 32 then some (a + b) else none

/-- Rust `u128` addition in debug mode: overflow panics, modelled as `none`. -/
def checkedAdd128 (a b : Nat) : Option Nat :=
  if a + b < 2 ^ 128 then some (a + b) else none

/-- `u32::from_be_bytes([a, b, c, d])`. -/
def u32_from_be_bytes (a b c d : Nat) : Nat :=
  ((a * 256 + b) * 256 + c) * 256 + d

/-- `u32::to_be_bytes`, as the 4-tuple `(bytes[0], bytes[1], bytes[2], bytes[3])`. -/
def u32_to_be_bytes (n : Nat) : Nat × Nat × Nat × Nat :=
  (n / 2 ^ 24 % 256, n / 2 ^ 16 % 256, n / 2 ^ 8 % 256, n % 256)

/-- `Ipv4Network::cidr_to_hostcount(cidr) = 1u32 << (32 - cidr)`.  The `u8`
subtraction underflows for `cidr > 32`, and the shift overflows (shift amount
equal to the bit width) for `cidr = 0`; both panics are modelled as `none`. -/
def Ipv4Network.cidr_to_hostcount (cidr : Nat) : Option Nat :=
  (checkedSub 32 cidr).bind fun k => if k < 32 then some (2 ^ k) else none

/-- `Ipv4Network::hostcount`. -/
def Ipv4Network.hostcount (n : Ipv4Network) : Option Nat :=
  Ipv4Network.cidr_to_hostcount n.cidr

/-- `Ipv4Network::is_valid(first, cidr) = first % cidr_to_hostcount(cidr) == 0`. -/
def Ipv4Network.is_valid (first cidr : Nat) : Option Bool :=
  (Ipv4Network.cidr_to_hostcount cidr).map fun h => decide (first % h = 0)

/-- `Ipv4Network::new(a, b, c, d, cidr)`: combines the four octets
big-endian, then checks the alignment invariant. -/
def Ipv4Network.new (a b c d cidr : Nat) : Option (Except Error Ipv4Network) :=
  let first := u32_from_be_bytes a b c d
  (Ipv4Network.is_valid first cidr).map fun v =>
    if v then Except.ok ⟨first, cidr⟩ else Except.error Error.InvalidNetwork

/-- `Ipv4Network::into_subnets(new_cidr)`: builds the iterator state
`current = first`, `stepping = cidr_to_hostcount(new_cidr)`, `cidr = new_cidr`,
`max = first + hostcount() - 1` (the addition is the u32 addition). -/
def Ipv4Network.into_subnets (n : Ipv4Network) (new_cidr : Nat) :
    Option NetworkV4Iterator :=
  (Ipv4Network.cidr_to_hostcount new_cidr).bind fun stepping =>
  (Ipv4Network.hostcount n).bind fun h =>
  (checkedAdd32 n.first h).map fun s =>
    { current := n.first, max := s - 1, stepping := stepping, cidr := new_cidr }

/-- `Ipv4Network::into_hosts()`: `current = first`, `max = first + hostcount()`. -/
def Ipv4Network.into_hosts (n : Ipv4Network) : Option HostIterator :=
  (Ipv4Network.hostcount n).bind fun h =>
  (checkedAdd32 n.first h).map fun m =>
    { current := n.first, max := m }

/-- `Ipv4Network::last() = first + hostcount() - 1` (u32 arithmetic), as the
numeric value of the returned `Ipv4Addr`. -/
def Ipv4Network.last (n : Ipv4Network) : Option Nat :=
  (Ipv4Network.hostcount n).bind fun h =>
  (checkedAdd32 n.first h).map fun s => s - 1

/-- `Ipv4Network::contains(ip) = ip > first && ip < first + hostcount() - 1`.
`&&` short-circuits, so the right operand (and its possible panics) is only
evaluated when `ip > first`. -/
def Ipv4Network.contains (n : Ipv4Network) (ip : Nat) : Option Bool :=
  if n.first < ip then
    (Ipv4Network.hostcount n).bind fun h =>
    (checkedAdd32 n.first h).map fun s => decide (ip < s - 1)
  else some false

/-- `Ipv6Network::cidr_to_hostcount(cidr) = 1u128 << (128 - cidr)`, with the
same panic behaviour as the IPv4 version at width 128. -/
def Ipv6Network.cidr_to_hostcount (cidr : Nat) : Option Nat :=
  (checkedSub 128 cidr).bind fun k => if k < 128 then some (2 ^ k) else none

/-- `Ipv6Network::hostcount`. -/
def Ipv6Network.hostcount (n : Ipv6Network) : Option Nat :=
  Ipv6Network.cidr_to_hostcount n.cidr

/-- `Ipv6Network::is_valid`. -/
def Ipv6Network.is_valid (first cidr : Nat) : Option Bool :=
  (Ipv6Network.cidr_to_hostcount cidr).map fun h => decide (first % h = 0)

/-- `Ipv6Network::new(first, cidr)`. -/
def Ipv6Network.new (first cidr : Nat) : Option (Except Error Ipv6Network) :=
  (Ipv6Network.is_valid first cidr).map fun v =>
    if v then Except.ok ⟨first, cidr⟩ else Except.error Error.InvalidNetwork

/-- `Ipv6Network::last() = first + hostcount()` (note: no `- 1` in the
source, unlike the IPv4 version), as the numeric value of the `Ipv6Addr`. -/
def Ipv6Network.last (n : Ipv6Network) : Option Nat :=
  (Ipv6Network.hostcount n).bind fun h => checkedAdd128 n.first h

/-- `<NetworkV4Iterator as Iterator>::next`: if `current < max`, advance
`current` by `stepping` (u32 addition), rebuild the network from the new
current's big-endian bytes, yield it on `Ok` and end the stream on `Err`.
Result: `none` = panic, `some (none, it)` = the stream returned `None`,
`some (some n, it)` = the stream yielded `n`; the second component is the
iterator state after the call. -/
def NetworkV4Iterator.next (it : NetworkV4Iterator) :
    Option (Option Ipv4Network × NetworkV4Iterator) :=
  if it.current < it.max then
    (checkedAdd32 it.current it.stepping).bind fun c =>
      let bs := u32_to_be_bytes c
      (Ipv4Network.new bs.1 bs.2.1 bs.2.2.1 bs.2.2.2 it.cidr).map fun r =>
        match r with
        | Except.ok n => (some n, { it with current := c })
        | Except.error _ => (none, { it with current := c })
  else some (none, it)

/-- Drains `NetworkV4Iterator` with `fuel` calls at most (like `collect()`ists
the yielded networks): `none` when fuel runs out or a call panics. -/
def collectV4 (fuel : Nat) (it : NetworkV4Iterator) : Option (List Ipv4Network) :=
  match fuel with
  | 0 => none
  | fuel + 1 =>
    match NetworkV4Iterator.next it with
    | none => none
    | some (none, _) => some []
    | some (some n, it2) => (collectV4 fuel it2).map fun l => n :: l

/-- Modelled from the spec: the repository declares `HostIterator` and
constructs it in `into_hosts`, but contains no `Iterator` implementation
(no `next`) for it.  Modelled from the spec's host-iterator section: the
sequence runs "from `first+1` up to `first + hostcount()`, advancing by 1
each step", in the same pre-increment style as the crate's subnet iterators:
while `current < max`, increment `current` by one and yield it. -/
def HostIterator.next (it : HostIterator) : Option Nat × HostIterator :=
  if it.current < it.max then
    (some (it.current + 1), { it with current := it.current + 1 })
  else (none, it)

/-- Drains `HostIterator` with `fuel` calls at most. -/
def collectHosts (fuel : Nat) (it : HostIterator) : Option (List Nat) :=
  match fuel with
  | 0 => none
  | fuel + 1 =>
    match HostIterator.next it with
    | (none, _) => some []
    | (some a, it2) => (collectHosts fuel it2).map fun l => a :: l

/-- Rust's `str::split(sep)` on a character list: splitting keeps empty
pieces, and an empty input gives one empty piece. -/
def splitOn (sep : Char) : List Char → List (List Char)
  | [] => [[]]
  | c :: rest =>
    if c = sep then [] :: splitOn sep rest
    else
      match splitOn sep rest with
      | [] => [[c]]
      | p :: ps => (c :: p) :: ps

/-- Decimal value of an all-digit, non-empty character list; `none` otherwise. -/
def parseNatDigits (s : List Char) : Option Nat :=
  if s ≠ [] ∧ s.all Char.isDigit then
    some (s.foldl (fun acc c => acc * 10 + (c.toNat - 48)) 0)
  else none

/-- Models Rust std's `u8::from_str` (used by the crate for the prefix part):
an optional leading `+`, then one or more decimal digits, value below 256. -/
def parseU8 (s : List Char) : Option Nat :=
  let digits := match s with | '+' :: rest => rest | _ => s
  (parseNatDigits digits).bind fun v => if v < 256 then some v else none

/-- Models one octet of Rust std's `Ipv4Addr::from_str`: decimal digits, no
sign, no leading zero, value at most 255. -/
def parseOctet (s : List Char) : Option Nat :=
  (parseNatDigits s).bind fun v =>
    if 2 ≤ s.length ∧ s.head? = some '0' then none
    else if v ≤ 255 then some v else none

/-- Models Rust std's `Ipv4Addr::from_str` (used by the crate for the address
part): exactly four dot-separated octets, combined big-endian into the u32
value of the address. -/
def parseIpv4Addr (s : List Char) : Option Nat :=
  match splitOn '.' s with
  | [p0, p1, p2, p3] =>
    match parseOctet p0, parseOctet p1, parseOctet p2, parseOctet p3 with
    | some a, some b, some c, some d => some (u32_from_be_bytes a b c d)
    | _, _, _, _ => none
  | _ => none

/-- `<Ipv4Network as FromStr>::from_str`: split on `/`; with anything other
than exactly two pieces fail with `NetworkParseError`; parse the address and
the prefix, failing with `NetworkParseError` if either fails; then hand the
address's big-endian bytes and the prefix to `Ipv4Network::new`. -/
def Ipv4Network.from_str (s : List Char) : Option (Except Error Ipv4Network) :=
  match splitOn '/' s with
  | [p0, p1] =>
    match parseIpv4Addr p0 with
    | none => some (Except.error Error.NetworkParseError)
    | some ip =>
      match parseU8 p1 with
      | none => some (Except.error Error.NetworkParseError)
      | some cidr =>
        let bs := u32_to_be_bytes ip
        Ipv4Network.new bs.1 bs.2.1 bs.2.2.1 bs.2.2.2 cidr
  | _ => some (Except.error Error.NetworkParseError)

/-- Ceiling division, used to state the subnet iterator's yield count. -/
def cdiv (a b : Nat) : Nat := (a + b - 1) / b

/-- The networks the subnet iterator hands out, starting one step above
`cur`: `t` networks with prefix `c`, each a further `s` above the previous. -/
def subnetList (s c : Nat) : Nat → Nat → List Ipv4Network
  | _, 0 => []
  | cur, t + 1 => ⟨cur + s, c⟩ :: subnetList s c (cur + s) t

theorem cth4_some_iff (cidr s : Nat) :
    Ipv4Network.cidr_to_hostcount cidr = some s ↔
      1 ≤ cidr ∧ cidr ≤ 32 ∧ s = 2 ^ (32 - cidr) := by
  unfold Ipv4Network.cidr_to_hostcount checkedSub
  by_cases h1 : cidr ≤ 32
  · rw [if_pos h1, Option.some_bind]
    by_cases h2 : 32 - cidr < 32
    · rw [if_pos h2]
      simp only [Option.some.injEq]
      constructor
      · intro h; exact ⟨by omega, h1, h.symm⟩
      · rintro ⟨_, _, rfl⟩; rfl
    · rw [if_neg h2]
      constructor
      · intro h; exact Option.noConfusion h
      · rintro ⟨hc, _, _⟩; omega
  · rw [if_neg h1, Option.none_bind]
    constructor
    · intro h; exact Option.noConfusion h
    · rintro ⟨_, hc, _⟩; omega

theorem cth6_some_iff (cidr s : Nat) :
    Ipv6Network.cidr_to_hostcount cidr = some s ↔
      1 ≤ cidr ∧ cidr ≤ 128 ∧ s = 2 ^ (128 - cidr) := by
  unfold Ipv6Network.cidr_to_hostcount checkedSub
  by_cases h1 : cidr ≤ 128
  · rw [if_pos h1, Option.some_bind]
    by_cases h2 : 128 - cidr < 128
    · rw [if_pos h2]
      simp only [Option.some.injEq]
      constructor
      · intro h; exact ⟨by omega, h1, h.symm⟩
      · rintro ⟨_, _, rfl⟩; rfl
    · rw [if_neg h2]
      constructor
      · intro h; exact Option.noConfusion h
      · rintro ⟨hc, _, _⟩; omega
  · rw [if_neg h1, Option.none_bind]
    constructor
    · intro h; exact Option.noConfusion h
    · rintro ⟨_, hc, _⟩; omega

theorem cth4_pos {cidr s : Nat} (h : Ipv4Network.cidr_to_hostcount cidr = some s) :
    0 < s := by
  rcases (cth4_some_iff cidr s).1 h with ⟨_, _, rfl⟩
  exact pow_pos (by norm_num) _

theorem cth6_pos {cidr s : Nat} (h : Ipv6Network.cidr_to_hostcount cidr = some s) :
    0 < s := by
  rcases (cth6_some_iff cidr s).1 h with ⟨_, _, rfl⟩
  exact pow_pos (by norm_num) _

theorem from_be_to_be (x : Nat) (hx : x < 2 ^ 32) :
    u32_from_be_bytes (u32_to_be_bytes x).1 (u32_to_be_bytes x).2.1
      (u32_to_be_bytes x).2.2.1 (u32_to_be_bytes x).2.2.2 = x := by
  simp only [u32_from_be_bytes, u32_to_be_bytes]
  omega

/-- `Ipv4Network::new` applied to the big-endian bytes of a `u32` value. -/
theorem new_bytes_of (x cidr s : Nat) (hx : x < 2 ^ 32)
    (hs : Ipv4Network.cidr_to_hostcount cidr = some s) :
    Ipv4Network.new (u32_to_be_bytes x).1 (u32_to_be_bytes x).2.1
      (u32_to_be_bytes x).2.2.1 (u32_to_be_bytes x).2.2.2 cidr =
      some (if x % s = 0 then Except.ok ⟨x, cidr⟩
            else Except.error Error.InvalidNetwork) := by
  simp only [Ipv4Network.new, Ipv4Network.is_valid, from_be_to_be x hx, hs,
    Option.map_some']
  by_cases h : x % s = 0 <;> simp [h]

theorem add_step_le (s x y : Nat) (hx : x % s = 0) (hy : y % s = 0)
    (h : x < y) : x + s ≤ y := by
  have hs : 0 < s := by
    rcases Nat.eq_zero_or_pos s with rfl | hp
    · omega
    · exact hp
  obtain ⟨a, rfl⟩ := Nat.dvd_of_mod_eq_zero hx
  obtain ⟨b, rfl⟩ := Nat.dvd_of_mod_eq_zero hy
  have hab : a < b := lt_of_mul_lt_mul_left h (Nat.zero_le s)
  calc s * a + s = s * (a + 1) := by ring
    _ ≤ s * b := Nat.mul_le_mul_left s (by omega)

theorem le_cdiv_mul (n s : Nat) (hs : 0 < s) : n ≤ cdiv n s * s := by
  rw [cdiv]
  have h1 := Nat.div_add_mod' (n + s - 1) s
  have h2 := Nat.mod_lt (n + s - 1) hs
  generalize (n + s - 1) / s * s = A at h1 ⊢
  generalize (n + s - 1) % s = r at h1 h2
  omega

theorem mul_lt_of_lt_cdiv {n s j : Nat} (hs : 0 < s) (h : j < cdiv n s) :
    j * s < n := by
  rw [cdiv] at h
  have h1 : (j + 1) * s ≤ n + s - 1 := (Nat.le_div_iff_mul_le hs).1 h
  have h2 : 0 < n := by
    by_contra hn
    have : n = 0 := by omega
    subst this
    rw [Nat.div_eq_of_lt (by omega)] at h
    omega
  have h3 : (j + 1) * s = j * s + s := by ring
  generalize j * s = B at h1 h3 ⊢
  omega

theorem cdiv_one (n : Nat) : cdiv n 1 = n := by
  simp [cdiv]

theorem cdiv_mul_pred (m s : Nat) (hm : 0 < m) (hs : 2 ≤ s) :
    cdiv (m * s - 1) s = m := by
  have h0 : s ≤ m * s := by
    calc s = 1 * s := (one_mul s).symm
      _ ≤ m * s := Nat.mul_le_mul_right s hm
  have e : m * s - 1 + s - 1 = s * m + (s - 2) := by
    have : s * m = m * s := Nat.mul_comm s m
    generalize m * s = A at h0 this ⊢
    omega
  rw [cdiv, e, Nat.mul_add_div (by omega), Nat.div_eq_of_lt (by omega)]
  omega

theorem subnetList_length (s c t cur : Nat) :
    (subnetList s c cur t).length = t := by
  induction t generalizing cur with
  | zero => rfl
  | succ t ih => simp [subnetList, ih]

theorem subnetList_mem (s c : Nat) (hs : 0 < s) :
    ∀ t cur x, x ∈ subnetList s c cur t → cur < x.first ∧ x.cidr = c := by
  intro t
  induction t with
  | zero => intro cur x hx; simp [subnetList] at hx
  | succ t ih =>
    intro cur x hx
    rcases (List.mem_cons).1 hx with rfl | hx
    · exact ⟨show cur < cur + s by omega, rfl⟩
    · have := ih (cur + s) x hx
      exact ⟨by omega, this.2⟩

/-- One full run of the subnet iterator, from a cursor `cur` that is `s`-aligned
below the bound `M - 1`: with `t` characterised as the yield count, draining
the iterator produces exactly the `t` networks of `subnetList`. -/
theorem collectV4_run (s c M : Nat) (hs : Ipv4Network.cidr_to_hostcount c = some s)
    (hM : M % s = 0) (hM32 : M < 2 ^ 32) :
    ∀ t cur fuel, cur % s = 0 → M ≤ cur + t * s + 1 →
      (∀ j, j < t → cur + j * s < M - 1) →
      t + 1 ≤ fuel →
      collectV4 fuel ⟨cur, M - 1, s, c⟩ = some (subnetList s c cur t) := by
  intro t
  induction t with
  | zero =>
    intro cur fuel hcur hub _ hfuel
    obtain ⟨f, rfl⟩ : ∃ f, fuel = f + 1 := ⟨fuel - 1, by omega⟩
    have hub' : M ≤ cur + 1 := by
      have h := hub
      rw [Nat.zero_mul] at h
      omega
    have hstop : ¬ (cur < M - 1) := by omega
    simp [collectV4, NetworkV4Iterator.next, hstop, subnetList]
  | succ t ih =>
    intro cur fuel hcur hub hlt hfuel
    obtain ⟨f, rfl⟩ : ∃ f, fuel = f + 1 := ⟨fuel - 1, by omega⟩
    have hs0 : 0 < s := cth4_pos hs
    have hgo : cur < M - 1 := by
      have h0 := hlt 0 (Nat.succ_pos t)
      rw [Nat.zero_mul] at h0
      omega
    have hle : cur + s ≤ M := add_step_le s cur M hcur hM (by omega)
    have hadd : checkedAdd32 cur s = some (cur + s) := by
      unfold checkedAdd32
      rw [if_pos (by omega)]
    have hcs : (cur + s) % s = 0 := by
      rw [Nat.add_mod_right]
      exact hcur
    have hnew := new_bytes_of (cur + s) c s (by omega) hs
    rw [if_pos hcs] at hnew
    have hnext : NetworkV4Iterator.next ⟨cur, M - 1, s, c⟩ =
        some (some ⟨cur + s, c⟩, ⟨cur + s, M - 1, s, c⟩) := by
      simp only [NetworkV4Iterator.next, if_pos hgo, hadd, Option.some_bind,
        hnew, Option.map_some']
    have hub' : M ≤ cur + s + t * s + 1 := by
      rw [add_mul, one_mul] at hub
      omega
    have hlt' : ∀ j, j < t → cur + s + j * s < M - 1 := by
      intro j hj
      have h := hlt (j + 1) (by omega)
      rw [add_mul, one_mul] at h
      omega
    unfold collectV4
    rw [hnext]
    simp only [ih (cur + s) f hcs hub' hlt' (by omega), Option.map_some']
    rfl

/-- One full run of the modelled host iterator: from cursor `cur` with `t`
addresses left before the bound `M`, draining yields `cur+1, …, cur+t`. -/
theorem collectHosts_run (M : Nat) :
    ∀ t cur fuel, cur + t = M → t + 1 ≤ fuel →
      collectHosts fuel ⟨cur, M⟩ = some ((List.range t).map fun j => cur + 1 + j) := by
  intro t
  induction t with
  | zero =>
    intro cur fuel hc hf
    obtain ⟨f, rfl⟩ : ∃ f, fuel = f + 1 := ⟨fuel - 1, by omega⟩
    have hstop : ¬ (cur < M) := by omega
    simp [collectHosts, HostIterator.next, hstop]
  | succ t ih =>
    intro cur fuel hc hf
    obtain ⟨f, rfl⟩ : ∃ f, fuel = f + 1 := ⟨fuel - 1, by omega⟩
    have hgo : cur < M := by omega
    have hnext : HostIterator.next ⟨cur, M⟩ = (some (cur + 1), ⟨cur + 1, M⟩) := by
      simp [HostIterator.next, hgo]
    unfold collectHosts
    rw [hnext]
    simp only [ih (cur + 1) f (by omega) (by omega), Option.map_some']
    have hfun : ((fun j => cur + 1 + j) ∘ Nat.succ) = fun j => cur + 1 + 1 + j := by
      funext j
      simp only [Function.comp]
      omega
    rw [List.range_succ_eq_map, List.map_cons, List.map_map, hfun]

/-- `Ipv4Network::new` never reports `NetworkParseError`: its only typed
failure is `InvalidNetwork`. -/
theorem new_ne_parse_error (a b c d k : Nat) :
    Ipv4Network.new a b c d k ≠ some (Except.error Error.NetworkParseError) := by
  unfold Ipv4Network.new Ipv4Network.is_valid
  cases h : Ipv4Network.cidr_to_hostcount k with
  | none => simp
  | some v =>
    by_cases hm : u32_from_be_bytes a b c d % v = 0 <;> simp [hm]

/-- C1 counterexample: the claim fails for `Ipv6Network`.  `⟨0, 128⟩` is
validly constructed, its host count is 1, so the claimed `last` value is
`first + hostcount - 1 = 0`; but `Ipv6Network::last` computes
`first + hostcount` with no `- 1` and returns 1. -/
theorem c1_v6_last_counterexample :
    Ipv6Network.new 0 128 = some (Except.ok ⟨0, 128⟩) ∧
    Ipv6Network.hostcount ⟨0, 128⟩ = some 1 ∧
    Ipv6Network.last ⟨0, 128⟩ = some 1 ∧
    (1 : Nat) ≠ 0 + 1 - 1 :=
  ⟨rfl, rfl, rfl, by decide⟩

/-- C1 (amended): whenever the additions do not overflow, `Ipv4Network::last`
returns `first + hostcount() - 1`, the block's final address, but
`Ipv6Network::last` returns `first + hostcount()`, one past it. -/
theorem c1_last_amended (n4 : Ipv4Network) (H4 : Nat) (n6 : Ipv6Network) (H6 : Nat)
    (h4 : Ipv4Network.cidr_to_hostcount n4.cidr = some H4)
    (ho4 : n4.first + H4 < 2 ^ 32)
    (h6 : Ipv6Network.cidr_to_hostcount n6.cidr = some H6)
    (ho6 : n6.first + H6 < 2 ^ 128) :
    Ipv4Network.last n4 = some (n4.first + H4 - 1) ∧
    Ipv6Network.last n6 = some (n6.first + H6) := by
  constructor
  · simp only [Ipv4Network.last, Ipv4Network.hostcount, h4, Option.some_bind,
      checkedAdd32, if_pos ho4, Option.map_some']
  · simp only [Ipv6Network.last, Ipv6Network.hostcount, h6, Option.some_bind,
      checkedAdd128, if_pos ho6]

/-- C1 witness: the amended statement at `1.1.1.0/24` and `::0/128`. -/
theorem c1_last_amended_witness :
    Ipv4Network.last ⟨16843008, 24⟩ = some 16843263 ∧
    Ipv6Network.last ⟨0, 128⟩ = some 1 := by
  have h := c1_last_amended ⟨16843008, 24⟩ 256 ⟨0, 128⟩ 1
    (by decide) (by decide) (by decide) (by decide)
  exact ⟨h.1, h.2⟩

/-- C4: at `cidr = 0` the computation `1 << (width - cidr)` is a shift by the
full bit width, an arithmetic overflow (a panic in debug builds, a silently
masked shift in release builds), for both address families; consequently
`new` panics there as well instead of returning a typed result. -/
theorem c4_cidr_zero_overflow :
    Ipv4Network.cidr_to_hostcount 0 = none ∧
    Ipv6Network.cidr_to_hostcount 0 = none ∧
    (∀ a b c d, Ipv4Network.new a b c d 0 = none) ∧
    (∀ first, Ipv6Network.new first 0 = none) :=
  ⟨rfl, rfl, fun _ _ _ _ => rfl, fun _ => rfl⟩

/-- C6: `Ipv4Network::contains` is the strict interior test: whenever its
arithmetic is defined it returns exactly `first < ip ∧ ip < last` where
`last = first + hostcount - 1`; on `1.1.1.0/24` it accepts `1.1.1.1` and
rejects both `1.1.1.0` and `1.1.1.255`. -/
theorem c6_contains_strict (n : Ipv4Network) (ip H : Nat)
    (hH : Ipv4Network.cidr_to_hostcount n.cidr = some H)
    (hov : n.first + H < 2 ^ 32) :
    Ipv4Network.contains n ip = some (decide (n.first < ip ∧ ip < n.first + H - 1)) ∧
    Ipv4Network.last n = some (n.first + H - 1) ∧
    Ipv4Network.contains ⟨16843008, 24⟩ 16843009 = some true ∧
    Ipv4Network.contains ⟨16843008, 24⟩ 16843008 = some false ∧
    Ipv4Network.contains ⟨16843008, 24⟩ 16843263 = some false := by
  refine ⟨?_, ?_, rfl, rfl, rfl⟩
  · unfold Ipv4Network.contains
    by_cases hip : n.first < ip
    · rw [if_pos hip]
      simp only [Ipv4Network.hostcount, hH, Option.some_bind, checkedAdd32,
        if_pos hov, Option.map_some', Option.some.injEq]
      simp [hip]
    · rw [if_neg hip]
      simp [hip]
  · simp only [Ipv4Network.last, Ipv4Network.hostcount, hH, Option.some_bind,
      checkedAdd32, if_pos hov, Option.map_some']

/-- C6 witness: the general statement instantiated on `1.1.1.0/24`. -/
theorem c6_contains_strict_witness :
    Ipv4Network.contains ⟨16843008, 24⟩ 16843009 = some true ∧
    Ipv4Network.last ⟨16843008, 24⟩ = some 16843263 := by
  have h := c6_contains_strict ⟨16843008, 24⟩ 16843009 256 (by decide) (by decide)
  refine ⟨?_, h.2.1⟩
  rw [h.1]
  exact rfl

/-- C7 counterexample: `(first, cidr) = (0, 0)` is aligned
(`0 mod 2^32 = 0`), so the claim demands that `new` succeed, but at
`cidr = 0` both constructors hit the shift overflow and panic instead of
returning any `Result`. -/
theorem c7_new_cidr_zero_counterexample :
    u32_from_be_bytes 0 0 0 0 % 2 ^ (32 - 0) = 0 ∧
    Ipv4Network.new 0 0 0 0 0 = none ∧
    Ipv6Network.new 0 0 = none :=
  ⟨by decide, rfl, rfl⟩

/-- C7 (amended): for `cidr` in `[1, width]`, `new` succeeds with exactly the
given `first`/`cidr` fields on aligned pairs and fails with `InvalidNetwork`
on misaligned ones, for both families; at `cidr = 0` it panics instead. -/
theorem c7_new_alignment_amended :
    (∀ a b c d cidr, 1 ≤ cidr → cidr ≤ 32 →
      Ipv4Network.new a b c d cidr =
        some (if u32_from_be_bytes a b c d % 2 ^ (32 - cidr) = 0
              then Except.ok ⟨u32_from_be_bytes a b c d, cidr⟩
              else Except.error Error.InvalidNetwork)) ∧
    (∀ first cidr, 1 ≤ cidr → cidr ≤ 128 →
      Ipv6Network.new first cidr =
        some (if first % 2 ^ (128 - cidr) = 0
              then Except.ok ⟨first, cidr⟩
              else Except.error Error.InvalidNetwork)) ∧
    (∀ a b c d, Ipv4Network.new a b c d 0 = none) ∧
    (∀ first, Ipv6Network.new first 0 = none) := by
  refine ⟨?_, ?_, fun _ _ _ _ => rfl, fun _ => rfl⟩
  · intro a b c d cidr h1 h2
    have hc : Ipv4Network.cidr_to_hostcount cidr = some (2 ^ (32 - cidr)) :=
      (cth4_some_iff cidr (2 ^ (32 - cidr))).2 ⟨h1, h2, rfl⟩
    simp only [Ipv4Network.new, Ipv4Network.is_valid, hc, Option.map_some']
    by_cases h : u32_from_be_bytes a b c d % 2 ^ (32 - cidr) = 0 <;> simp [h]
  · intro first cidr h1 h2
    have hc : Ipv6Network.cidr_to_hostcount cidr = some (2 ^ (128 - cidr)) :=
      (cth6_some_iff cidr (2 ^ (128 - cidr))).2 ⟨h1, h2, rfl⟩
    simp only [Ipv6Network.new, Ipv6Network.is_valid, hc, Option.map_some']
    by_cases h : first % 2 ^ (128 - cidr) = 0 <;> simp [h]

/-- C7 witness: an aligned and a misaligned pair at `cidr = 24`, and an
aligned IPv6 pair at `cidr = 64`. -/
theorem c7_new_alignment_amended_witness :
    Ipv4Network.new 1 1 1 0 24 = some (Except.ok ⟨16843008, 24⟩) ∧
    Ipv4Network.new 1 1 1 1 24 = some (Except.error Error.InvalidNetwork) ∧
    Ipv6Network.new 0 64 = some (Except.ok ⟨0, 64⟩) := by
  refine ⟨?_, ?_, ?_⟩
  · rw [c7_new_alignment_amended.1 1 1 1 0 24 (by norm_num) (by norm_num)]
    exact rfl
  · rw [c7_new_alignment_amended.1 1 1 1 1 24 (by norm_num) (by norm_num)]
    exact rfl
  · rw [c7_new_alignment_amended.2.1 0 64 (by norm_num) (by norm_num)]
    exact rfl

/-- C2 counterexample: draining `1.1.1.0/24 → /25` yields two networks, but
the second one has base `16843264` (`1.1.2.0`), not `16843136` (`1.1.1.128`),
and its base lies beyond the parent's final address `16843263`, so not every
yielded network lies inside the parent block. -/
theorem c2_subnets_counterexample :
    (Ipv4Network.into_subnets ⟨16843008, 24⟩ 25).bind (collectV4 3) =
      some [⟨16843136, 25⟩, ⟨16843264, 25⟩] ∧
    (16843264 : Nat) ≠ 16843136 ∧
    16843008 + 256 - 1 < (16843264 : Nat) :=
  ⟨rfl, by decide, by decide⟩

/-- C2 (amended): `1.1.1.0/24 → /25` yields exactly two networks with
`cidr = 25`, in ascending base order; the FIRST has base `1.1.1.128`
(`16843136 = 16843008 + 128`), and the second, `1.1.2.0` (`16843264`), lies
entirely outside the parent block. -/
theorem c2_subnets_amended :
    Ipv4Network.new 1 1 1 0 24 = some (Except.ok ⟨16843008, 24⟩) ∧
    (Ipv4Network.into_subnets ⟨16843008, 24⟩ 25).bind (collectV4 3) =
      some [⟨16843136, 25⟩, ⟨16843264, 25⟩] ∧
    (⟨16843136, 25⟩ : Ipv4Network).cidr = 25 ∧
    (⟨16843264, 25⟩ : Ipv4Network).cidr = 25 ∧
    (16843136 : Nat) = 16843008 + 128 ∧
    (16843136 : Nat) < 16843264 ∧
    16843008 + 256 ≤ (16843264 : Nat) :=
  ⟨rfl, rfl, rfl, rfl, by decide, by decide, by decide⟩

/-- C3 counterexample: for `1.1.1.0/24 → /25` the claimed count is
`hostcount(24) / hostcount(25) - 1 = 1`, but the iterator yields 2 networks
(the crate's own test asserts the length 2). -/
theorem c3_count_counterexample :
    (Ipv4Network.into_subnets ⟨16843008, 24⟩ 25).bind (collectV4 3) =
      some [⟨16843136, 25⟩, ⟨16843264, 25⟩] ∧
    Ipv4Network.hostcount ⟨16843008, 24⟩ = some 256 ∧
    Ipv4Network.cidr_to_hostcount 25 = some 128 ∧
    [(⟨16843136, 25⟩ : Ipv4Network), ⟨16843264, 25⟩].length ≠ 256 / 128 - 1 :=
  ⟨rfl, rfl, rfl, by decide⟩

/-- C3 (amended): for a valid parent with `parent.cidr ≤ new_cidr` and no
overflow, the subnet iterator yields exactly `⌈(hostcount(parent) - 1) /
hostcount(new_cidr)⌉` networks — that is `hostcount(parent) / hostcount(new_cidr)`
(one more than the claim states) when `new_cidr < 32`, and
`hostcount(parent) - 1` when `new_cidr = 32` — and the sub-block whose base
coincides with the parent's base address is indeed never emitted. -/
theorem c3_subnet_count_amended (n : Ipv4Network) (nc H s : Nat)
    (hH : Ipv4Network.cidr_to_hostcount n.cidr = some H)
    (hs : Ipv4Network.cidr_to_hostcount nc = some s)
    (hle : n.cidr ≤ nc)
    (ha : n.first % H = 0)
    (hov : n.first + H < 2 ^ 32) :
    (Ipv4Network.into_subnets n nc).bind (collectV4 (cdiv (H - 1) s + 1)) =
      some (subnetList s nc n.first (cdiv (H - 1) s)) ∧
    (subnetList s nc n.first (cdiv (H - 1) s)).length = cdiv (H - 1) s ∧
    (nc = 32 → cdiv (H - 1) s = H - 1) ∧
    (nc < 32 → cdiv (H - 1) s = H / s) ∧
    (∀ x ∈ subnetList s nc n.first (cdiv (H - 1) s),
      x.first ≠ n.first ∧ x.cidr = nc) := by
  have hs0 : 0 < s := cth4_pos hs
  have hH0 : 0 < H := cth4_pos hH
  obtain ⟨hc1, hc2, hHe⟩ := (cth4_some_iff n.cidr H).1 hH
  obtain ⟨hn1, hn2, hse⟩ := (cth4_some_iff nc s).1 hs
  have sdH : s ∣ H := by
    rw [hHe, hse]
    exact pow_dvd_pow 2 (by omega)
  have hfs : n.first % s = 0 := by
    obtain ⟨a, hae⟩ := dvd_trans sdH (Nat.dvd_of_mod_eq_zero ha)
    rw [hae]
    exact Nat.mul_mod_right s a
  have hMs : (n.first + H) % s = 0 := by
    obtain ⟨b, hbe⟩ := sdH
    rw [Nat.add_mod, hfs, hbe, Nat.mul_mod_right]
    rfl
  have hit : Ipv4Network.into_subnets n nc =
      some ⟨n.first, n.first + H - 1, s, nc⟩ := by
    simp only [Ipv4Network.into_subnets, hs, Ipv4Network.hostcount, hH,
      Option.some_bind, checkedAdd32, if_pos hov, Option.map_some']
  have hub : n.first + H ≤ n.first + cdiv (H - 1) s * s + 1 := by
    have h1 := le_cdiv_mul (H - 1) s hs0
    generalize cdiv (H - 1) s * s = A at h1 ⊢
    omega
  have hlt : ∀ j, j < cdiv (H - 1) s → n.first + j * s < n.first + H - 1 := by
    intro j hj
    have h1 := mul_lt_of_lt_cdiv hs0 hj
    generalize j * s = B at h1 ⊢
    omega
  have hrun := collectV4_run s nc (n.first + H) hs hMs hov
    (cdiv (H - 1) s) n.first (cdiv (H - 1) s + 1) hfs hub hlt (le_refl _)
  refine ⟨?_, subnetList_length s nc _ n.first, ?_, ?_, ?_⟩
  · rw [hit, Option.some_bind]
    exact hrun
  · intro h32
    subst h32
    have : s = 1 := by rw [hse]; norm_num
    subst this
    exact cdiv_one (H - 1)
  · intro h32
    have hs2 : 2 ≤ s := by
      rw [hse]
      exact Nat.one_lt_two_pow_iff.2 (by omega)
    obtain ⟨m, hm⟩ := sdH
    rw [Nat.mul_comm] at hm
    have hm0 : 0 < m := by
      rcases Nat.eq_zero_or_pos m with rfl | h
      · rw [Nat.zero_mul] at hm; omega
      · exact h
    subst hm
    rw [cdiv_mul_pred m s hm0 hs2, Nat.mul_div_cancel m hs0]
  · intro x hx
    have h := subnetList_mem s nc hs0 (cdiv (H - 1) s) n.first x hx
    exact ⟨ne_of_gt h.1, h.2⟩

/-- C3 witness: the amended statement instantiated on `1.1.1.0/24 → /25`,
where the count is `256 / 128 = 2`. -/
theorem c3_subnet_count_amended_witness :
    (Ipv4Network.into_subnets ⟨16843008, 24⟩ 25).bind (collectV4 3) =
      some [⟨16843136, 25⟩, ⟨16843264, 25⟩] ∧
    cdiv (256 - 1) 128 = 256 / 128 := by
  have h := c3_subnet_count_amended ⟨16843008, 24⟩ 25 256 128
    (by decide) (by decide) (by decide) (by decide) (by decide)
  exact ⟨h.1, h.2.2.2.1 (by norm_num)⟩

/-- C5 (spec-modelled advancement): `into_hosts` builds the cursor
`(first, first + hostcount)`; draining it under the modelled `next` yields the
addresses `first + 1, first + 2, …`, advancing by one each step, with the
(inclusive) upper endpoint `first + hostcount()`. -/
theorem c5_hosts (n : Ipv4Network) (H : Nat)
    (hH : Ipv4Network.cidr_to_hostcount n.cidr = some H)
    (hov : n.first + H < 2 ^ 32) :
    Ipv4Network.into_hosts n = some ⟨n.first, n.first + H⟩ ∧
    ∀ fuel, H + 1 ≤ fuel →
      collectHosts fuel ⟨n.first, n.first + H⟩ =
        some ((List.range H).map fun j => n.first + 1 + j) := by
  constructor
  · simp only [Ipv4Network.into_hosts, Ipv4Network.hostcount, hH, Option.some_bind,
      checkedAdd32, if_pos hov, Option.map_some']
  · intro fuel hf
    exact collectHosts_run (n.first + H) H n.first fuel rfl hf

/-- C5 witness: `1.1.1.0/30` enumerates `1.1.1.1 … 1.1.1.4`. -/
theorem c5_hosts_witness :
    Ipv4Network.into_hosts ⟨16843008, 30⟩ = some ⟨16843008, 16843012⟩ ∧
    collectHosts 5 ⟨16843008, 16843012⟩ =
      some [16843009, 16843010, 16843011, 16843012] := by
  have h := c5_hosts ⟨16843008, 30⟩ 4 (by decide) (by decide)
  exact ⟨h.1, h.2 5 (by norm_num)⟩

/-- C9: for a valid network, `first + hostcount ≤ 2^32` always; when the sum
is exactly `2^32` (the block reaches `255.255.255.255`) the u32 addition in
`last`, `into_hosts` and `into_subnets` overflows (panics), and when the sum
is below `2^32` all three operations return values — they are total exactly
on the networks not containing the maximum address. -/
theorem c9_overflow_at_top (n : Ipv4Network) (H : Nat)
    (hH : Ipv4Network.cidr_to_hostcount n.cidr = some H)
    (ha : n.first % H = 0)
    (h32 : n.first < 2 ^ 32) :
    n.first + H ≤ 2 ^ 32 ∧
    (n.first + H = 2 ^ 32 →
      Ipv4Network.last n = none ∧
      Ipv4Network.into_hosts n = none ∧
      ∀ nc, Ipv4Network.into_subnets n nc = none) ∧
    (n.first + H < 2 ^ 32 →
      Ipv4Network.last n = some (n.first + H - 1) ∧
      Ipv4Network.into_hosts n = some ⟨n.first, n.first + H⟩ ∧
      ∀ nc s, Ipv4Network.cidr_to_hostcount nc = some s →
        Ipv4Network.into_subnets n nc = some ⟨n.first, n.first + H - 1, s, nc⟩) := by
  obtain ⟨hc1, hc2, hHe⟩ := (cth4_some_iff n.cidr H).1 hH
  have htop : (2 ^ 32 : Nat) % H = 0 := by
    obtain ⟨k, hk⟩ : H ∣ 2 ^ 32 := by
      rw [hHe]
      exact pow_dvd_pow 2 (by omega)
    rw [hk]
    exact Nat.mul_mod_right H k
  refine ⟨add_step_le H n.first (2 ^ 32) ha htop h32, ?_, ?_⟩
  · intro he
    have hno : checkedAdd32 n.first H = none := by
      unfold checkedAdd32
      rw [if_neg (by omega)]
    refine ⟨?_, ?_, ?_⟩
    · simp only [Ipv4Network.last, Ipv4Network.hostcount, hH, Option.some_bind,
        hno, Option.map_none']
    · simp only [Ipv4Network.into_hosts, Ipv4Network.hostcount, hH,
        Option.some_bind, hno, Option.map_none']
    · intro nc
      cases hnc : Ipv4Network.cidr_to_hostcount nc with
      | none =>
        simp only [Ipv4Network.into_subnets, hnc, Option.none_bind]
      | some v =>
        simp only [Ipv4Network.into_subnets, hnc, Option.some_bind,
          Ipv4Network.hostcount, hH, hno, Option.map_none']
  · intro hlt
    have hyes : checkedAdd32 n.first H = some (n.first + H) := by
      unfold checkedAdd32
      rw [if_pos hlt]
    refine ⟨?_, ?_, ?_⟩
    · simp only [Ipv4Network.last, Ipv4Network.hostcount, hH, Option.some_bind,
        hyes, Option.map_some']
    · simp only [Ipv4Network.into_hosts, Ipv4Network.hostcount, hH,
        Option.some_bind, hyes, Option.map_some']
    · intro nc s hnc
      simp only [Ipv4Network.into_subnets, hnc, Option.some_bind,
        Ipv4Network.hostcount, hH, hyes, Option.map_some']

/-- C9 witness: `255.255.255.0/24` (block reaching the maximum address)
panics in all three operations, `1.1.1.0/24` does not. -/
theorem c9_overflow_at_top_witness :
    Ipv4Network.last ⟨4294967040, 24⟩ = none ∧
    Ipv4Network.into_hosts ⟨4294967040, 24⟩ = none ∧
    Ipv4Network.into_subnets ⟨4294967040, 24⟩ 25 = none ∧
    Ipv4Network.last ⟨16843008, 24⟩ = some 16843263 := by
  have h1 := c9_overflow_at_top ⟨4294967040, 24⟩ 256 (by decide) (by decide) (by decide)
  have h2 := c9_overflow_at_top ⟨16843008, 24⟩ 256 (by decide) (by decide) (by decide)
  have ha := h1.2.1 (by decide)
  have hb := h2.2.2 (by decide)
  exact ⟨ha.1, ha.2.1, ha.2.2 25, hb.1⟩

/-- C8: parsing splits on `/` and fails with `NetworkParseError` exactly when
the split does not yield two parts, the address part fails address parsing,
or the prefix part fails integer parsing; when all three succeed it hands the
result to `new`, so `"1.1.1.1/24"` (well-formed but misaligned) yields
`InvalidNetwork` and `"1.1.1.1"` (no `/cidr`) yields `NetworkParseError`. -/
theorem c8_from_str_stages (s : List Char) :
    (Ipv4Network.from_str s = some (Except.error Error.NetworkParseError) ↔
      (splitOn '/' s).length ≠ 2 ∨
      (∃ p0 p1, splitOn '/' s = [p0, p1] ∧
        (parseIpv4Addr p0 = none ∨ parseU8 p1 = none))) ∧
    (∀ p0 p1 ip cidr, splitOn '/' s = [p0, p1] →
      parseIpv4Addr p0 = some ip → parseU8 p1 = some cidr →
      Ipv4Network.from_str s =
        Ipv4Network.new (u32_to_be_bytes ip).1 (u32_to_be_bytes ip).2.1
          (u32_to_be_bytes ip).2.2.1 (u32_to_be_bytes ip).2.2.2 cidr) ∧
    Ipv4Network.from_str "1.1.1.0/24".toList = some (Except.ok ⟨16843008, 24⟩) ∧
    Ipv4Network.from_str "1.1.1.1/24".toList = some (Except.error Error.InvalidNetwork) ∧
    Ipv4Network.from_str "1.1.1.1".toList = some (Except.error Error.NetworkParseError) := by
  refine ⟨?_, ?_, rfl, rfl, rfl⟩
  · rcases hsp : splitOn '/' s with _ | ⟨p0, _ | ⟨p1, _ | ⟨p2, rest⟩⟩⟩
    · unfold Ipv4Network.from_str
      rw [hsp]
      simp
    · unfold Ipv4Network.from_str
      rw [hsp]
      simp
    · cases hip : parseIpv4Addr p0 with
      | none =>
        unfold Ipv4Network.from_str
        rw [hsp]
        simp [hip]
        exact ⟨p0, p1, ⟨rfl, rfl⟩, Or.inl hip⟩
      | some ip =>
        cases hu : parseU8 p1 with
        | none =>
          unfold Ipv4Network.from_str
          rw [hsp]
          simp [hip, hu]
          exact ⟨p0, p1, ⟨rfl, rfl⟩, Or.inr hu⟩
        | some cidr =>
          unfold Ipv4Network.from_str
          rw [hsp]
          simp [hip, hu, new_ne_parse_error]
    · unfold Ipv4Network.from_str
      rw [hsp]
      simp
  · intro p0 p1 ip cidr h0 h1 h2
    unfold Ipv4Network.from_str
    rw [h0]
    simp only [h1, h2]

/-- C8 witness: the missing-slash and delegation cases instantiated. -/
theorem c8_from_str_stages_witness :
    Ipv4Network.from_str "1.1.1.1".toList = some (Except.error Error.NetworkParseError) ∧
    Ipv4Network.from_str "2.0.0.0/8".toList = Ipv4Network.new 2 0 0 0 8 := by
  constructor
  · exact (c8_from_str_stages "1.1.1.1".toList).1.mpr (Or.inl (by decide))
  · exact (c8_from_str_stages "2.0.0.0/8".toList).2.1 "2.0.0.0".toList "8".toList
      33554432 8 rfl rfl rfl

/-- C10: `"1.1.1.0/33"` is well formed and its prefix `33` passes integer
parsing, but `new`'s `32 - cidr` underflows, so `from_str` panics (modelled
`none`) rather than returning any typed error; likewise for prefix 255. -/
theorem c10_prefix_overflow_untyped :
    parseU8 "33".toList = some 33 ∧
    Ipv4Network.cidr_to_hostcount 33 = none ∧
    Ipv4Network.from_str "1.1.1.0/33".toList = none ∧
    Ipv4Network.from_str "1.1.1.0/255".toList = none :=
  ⟨rfl, rfl, rfl, rfl⟩

end Ipnetwork
